import Mathlib

/-!
Verification of the cached-fetch-with-fallback yield-curve pipeline of
`us_treasury_yield_curve_widget.js`.

The script runs on a JavaScript host (Scriptable).  The embedding models:

* the host `Date` object at day granularity as a `(year, month, day)`
  triple (`JsDate`), with the proleptic Gregorian calendar rules; the only
  `Date` operations the script uses are `getFullYear`, `getMonth`,
  `getDate`, `getDay` and `setDate(getDate() - 1)`.  JavaScript months are
  0-based; the embedding uses 1-based months, so JavaScript
  `date.getMonth() === 0` (January) corresponds to `month = 1` here.
  The weekday `getDay` is computed from the standard civil day-number
  formula (`daysFromCivil`), anchored so that 1970-01-01 is a Thursday
  (`getDay = 4`), matching the host.
* the cache as a map from file-name key (date with dashes removed) to the
  stored JSON object; a missing or unreadable file is `none`.
* the network as the list of `<entry>` blocks the feed regex extracts from
  the downloaded XML (`none` models a failed request or a response in
  which the entry regex finds no blocks, which the script treats alike),
  each block abstracted as its regex-extractable parts: the `d:NEW_DATE`
  text and an association list of field-name/text pairs.
* `new Date(string)` comparisons of feed date strings as an abstract
  valuation `v : String → Option ℤ` (`none` models an invalid date, whose
  comparisons are all false, like NaN).
* `parseFloat` by its ECMAScript semantics over an exact rational value
  (`PFloat`), including the `Infinity` literal and NaN.
-/

/-! ## Calendar model (host `Date` at day granularity) -/

/-- Leap-year rule of the Gregorian calendar, as the host implements it. -/
def isLeapYear (y : Nat) : Bool :=
  y % 4 == 0 && (y % 100 != 0 || y % 400 == 0)

/-- Number of days of month `m` (1-based) of year `y`. -/
def monthLength (y m : Nat) : Nat :=
  if m = 2 then (if isLeapYear y then 29 else 28)
  else if m = 4 ∨ m = 6 ∨ m = 9 ∨ m = 11 then 30
  else 31

/-- Models the host JavaScript `Date` at day granularity: the triple that
`getFullYear` / `getMonth`+1 / `getDate` observe. -/
structure JsDate where
  year : Nat
  month : Nat
  day : Nat
deriving DecidableEq

/-- A triple that denotes an actual calendar date (every `Date` the host
hands to the script satisfies this). -/
def JsDate.ValidDate (t : JsDate) : Prop :=
  1 ≤ t.month ∧ t.month ≤ 12 ∧ 1 ≤ t.day ∧ t.day ≤ monthLength t.year t.month

instance (t : JsDate) : Decidable t.ValidDate := by
  unfold JsDate.ValidDate; infer_instance

/-- Civil day number of a date (days since 0000-03-01 of the proleptic
Gregorian calendar), by the standard `days_from_civil` formula.  It models
the day count underlying the host timestamp. -/
def daysFromCivil (y m d : Nat) : Nat :=
  (y - (if m ≤ 2 then 1 else 0)) / 400 * 146097
  + (y - (if m ≤ 2 then 1 else 0)) % 400 * 365
  + (y - (if m ≤ 2 then 1 else 0)) % 400 / 4
  - (y - (if m ≤ 2 then 1 else 0)) % 400 / 100
  + ((153 * (if m > 2 then m - 3 else m + 9) + 2) / 5 + d - 1)

/-- Day number of a `JsDate`. -/
def JsDate.dayNumber (t : JsDate) : Nat := daysFromCivil t.year t.month t.day

/-- Models `date.getDay()`: 0 = Sunday, …, 6 = Saturday.  Anchored so that
day number 719468 (1970-01-01) is a Thursday (4). -/
def getDay (t : JsDate) : Nat := (t.dayNumber + 3) % 7

/-- Sanity anchor for the weekday formula: 1970-01-01 was a Thursday. -/
theorem getDay_epoch : getDay ⟨1970, 1, 1⟩ = 4 := by decide

/-- Sanity anchor: 2024-07-25 was a Thursday. -/
theorem getDay_sample : getDay ⟨2024, 7, 25⟩ = 4 := by decide

/-- Translation of `isWeekend` (line 55): `getDay` is Sunday (0) or
Saturday (6). -/
def isWeekend (t : JsDate) : Bool := getDay t == 0 || getDay t == 6

/-- Translation of `isUSHoliday` (line 66): fixed-date New Year,
Independence Day and Christmas only (JavaScript 0-based months
translated to the 1-based months of the model). -/
def isUSHoliday (t : JsDate) : Bool :=
  (t.month == 1 && t.day == 1) || (t.month == 7 && t.day == 4) ||
    (t.month == 12 && t.day == 25)

/-- Translation of `isBusinessDay` (line 90). -/
def isBusinessDay (t : JsDate) : Bool := !isWeekend t && !isUSHoliday t

/-- Models `result.setDate(result.getDate() - 1)`: the host normalizes day
0 of a month to the last day of the previous month, and day 0 of January
to December 31 of the previous year. -/
def prevDay (t : JsDate) : JsDate :=
  if 1 < t.day then ⟨t.year, t.month, t.day - 1⟩
  else if 1 < t.month then ⟨t.year, t.month - 1, monthLength t.year (t.month - 1)⟩
  else ⟨t.year - 1, 12, 31⟩

/-- Fuel-indexed backward search; `getClosestPreviousBusinessDay` runs it
with enough fuel for the loop to reach day number 0 (0000-03-01, a
Wednesday and a business day), so the fuel never runs out on a valid date
(`getClosestPreviousBusinessDay_spec` proves the loop stops within 3
steps). -/
def businessDaySearch : Nat → JsDate → JsDate
  | 0, t => t
  | fuel + 1, t => if isBusinessDay t then t else businessDaySearch fuel (prevDay t)

/-- Translation of `getClosestPreviousBusinessDay` (line 100): iterate
`setDate(getDate() - 1)` while the date is not a business day. -/
def getClosestPreviousBusinessDay (t : JsDate) : JsDate :=
  businessDaySearch (t.dayNumber + 1) t

/-- Iterated `prevDay`, used to state which dates the loop visits. -/
def prevIter : Nat → JsDate → JsDate
  | 0, t => t
  | k + 1, t => prevIter k (prevDay t)

/-! ## Calendar lemmas -/

theorem isLeapYear_iff (y : Nat) :
    isLeapYear y = true ↔ (y % 4 = 0 ∧ (y % 100 ≠ 0 ∨ y % 400 = 0)) := by
  simp [isLeapYear, Bool.and_eq_true, Bool.or_eq_true, beq_iff_eq, bne_iff_ne]

theorem monthLength_feb (y : Nat) :
    monthLength y 2 = if y % 4 = 0 ∧ (y % 100 ≠ 0 ∨ y % 400 = 0) then 29 else 28 := by
  rw [monthLength]
  norm_num
  by_cases hl : y % 4 = 0 ∧ (y % 100 ≠ 0 ∨ y % 400 = 0)
  · rw [if_pos ((isLeapYear_iff y).2 hl), if_pos hl]
  · rw [if_neg (fun h => hl ((isLeapYear_iff y).1 h)), if_neg hl]

theorem dayNumber_prevDay (t : JsDate) (hv : t.ValidDate) (h1 : 1 ≤ t.dayNumber) :
    (prevDay t).dayNumber = t.dayNumber - 1 := by
  obtain ⟨y, m, d⟩ := t
  obtain ⟨hm1, hm2, hd1, hd2⟩ := hv
  simp only at hm1 hm2 hd1 hd2
  simp only [JsDate.dayNumber] at h1 ⊢
  rw [prevDay]
  by_cases hd : 1 < d
  · rw [if_pos hd]
    simp only [daysFromCivil]
    split <;> split <;> omega
  · rw [if_neg hd]
    have hd0 : d = 1 := by omega
    subst hd0
    by_cases hm : 1 < m
    · rw [if_pos hm]
      simp only
      interval_cases m
      · -- m = 2
        simp only [daysFromCivil, monthLength] at h1 ⊢
        norm_num at h1 ⊢ <;> omega
      · -- m = 3
        rw [show (3 - 1 : Nat) = 2 from rfl, monthLength_feb]
        by_cases hl : y % 4 = 0 ∧ (y % 100 ≠ 0 ∨ y % 400 = 0)
        · rw [if_pos hl]
          simp only [daysFromCivil] at h1 ⊢
          norm_num at h1 ⊢ <;> omega
        · rw [if_neg hl]
          simp only [daysFromCivil] at h1 ⊢
          norm_num at h1 ⊢
          push_neg at hl
          omega
      · simp only [daysFromCivil, monthLength] at h1 ⊢; norm_num at h1 ⊢ <;> omega
      · simp only [daysFromCivil, monthLength] at h1 ⊢; norm_num at h1 ⊢ <;> omega
      · simp only [daysFromCivil, monthLength] at h1 ⊢; norm_num at h1 ⊢ <;> omega
      · simp only [daysFromCivil, monthLength] at h1 ⊢; norm_num at h1 ⊢ <;> omega
      · simp only [daysFromCivil, monthLength] at h1 ⊢; norm_num at h1 ⊢ <;> omega
      · simp only [daysFromCivil, monthLength] at h1 ⊢; norm_num at h1 ⊢ <;> omega
      · simp only [daysFromCivil, monthLength] at h1 ⊢; norm_num at h1 ⊢ <;> omega
      · simp only [daysFromCivil, monthLength] at h1 ⊢; norm_num at h1 ⊢ <;> omega
      · simp only [daysFromCivil, monthLength] at h1 ⊢; norm_num at h1 ⊢ <;> omega
    · rw [if_neg hm]
      have hm0 : m = 1 := by omega
      subst hm0
      simp only [daysFromCivil] at h1 ⊢
      norm_num at h1 ⊢ <;> omega

def Gfun (n : Nat) : Nat :=
  n / 400 * 146097 + n % 400 * 365 + n % 400 / 4 - n % 400 / 100

theorem Gfun_step (n : Nat) : Gfun n + 365 ≤ Gfun (n + 1) := by
  simp only [Gfun]; omega

theorem Gfun_mono (a b : Nat) (h : a < b) : Gfun a + 365 ≤ Gfun b := by
  induction b with
  | zero => omega
  | succ b ih =>
    rcases Nat.lt_or_ge a b with h2 | h2
    · have := Gfun_step b
      have := ih h2
      omega
    · have hab : a = b := by omega
      subst hab
      exact Gfun_step a

theorem dfc_jan1 (y : Nat) : daysFromCivil y 1 1 = Gfun (y - 1) + 306 := by
  simp only [daysFromCivil, Gfun]; norm_num

theorem dfc_jul4 (y : Nat) : daysFromCivil y 7 4 = Gfun y + 125 := by
  simp only [daysFromCivil, Gfun]; norm_num

theorem dfc_dec25 (y : Nat) : daysFromCivil y 12 25 = Gfun y + 299 := by
  simp only [daysFromCivil, Gfun]; norm_num

theorem holiday_form (t : JsDate) (h : isUSHoliday t = true) :
    ∃ n c, (c = 306 ∨ c = 125 ∨ c = 299) ∧ t.dayNumber = Gfun n + c := by
  obtain ⟨y, m, d⟩ := t
  simp only [isUSHoliday, Bool.or_eq_true, Bool.and_eq_true, beq_iff_eq] at h
  simp only [JsDate.dayNumber]
  rcases h with (⟨h1, h2⟩ | ⟨h1, h2⟩) | ⟨h1, h2⟩
  · subst h1; subst h2; exact ⟨y - 1, 306, Or.inl rfl, dfc_jan1 y⟩
  · subst h1; subst h2; exact ⟨y, 125, Or.inr (Or.inl rfl), dfc_jul4 y⟩
  · subst h1; subst h2; exact ⟨y, 299, Or.inr (Or.inr rfl), dfc_dec25 y⟩

theorem holiday_gap (t u : JsDate) (ht : isUSHoliday t = true) (hu : isUSHoliday u = true)
    (h : t.dayNumber < u.dayNumber) : t.dayNumber + 4 ≤ u.dayNumber := by
  obtain ⟨n1, c1, hc1, e1⟩ := holiday_form t ht
  obtain ⟨n2, c2, hc2, e2⟩ := holiday_form u hu
  rcases Nat.lt_trichotomy n1 n2 with hn | hn | hn
  · have := Gfun_mono n1 n2 hn
    omega
  · subst hn; omega
  · have := Gfun_mono n2 n1 hn
    omega

theorem monthLength_ge (y m : Nat) : 28 ≤ monthLength y m := by
  rw [monthLength]
  split_ifs <;> norm_num

theorem prevDay_valid (t : JsDate) (hv : t.ValidDate) : (prevDay t).ValidDate := by
  obtain ⟨y, m, d⟩ := t
  obtain ⟨hm1, hm2, hd1, hd2⟩ := hv
  simp only at hm1 hm2 hd1 hd2
  rw [prevDay]
  by_cases hd : 1 < d
  · rw [if_pos hd]
    refine ⟨hm1, hm2, ?_, ?_⟩
    · show 1 ≤ d - 1; omega
    · show d - 1 ≤ monthLength y m; omega
  · rw [if_neg hd]
    by_cases hm : 1 < m
    · rw [if_pos hm]
      refine ⟨?_, ?_, ?_, ?_⟩
      · show 1 ≤ m - 1; omega
      · show m - 1 ≤ 12; omega
      · show 1 ≤ monthLength y (m - 1)
        have := monthLength_ge y (m - 1)
        omega
      · show monthLength y (m - 1) ≤ monthLength y (m - 1)
        exact Nat.le_refl _
    · rw [if_neg hm]
      refine ⟨by norm_num, by norm_num, by norm_num, ?_⟩
      simp only [monthLength]
      norm_num

theorem weekend_res (t : JsDate) (h : isWeekend t = true) :
    t.dayNumber % 7 = 3 ∨ t.dayNumber % 7 = 4 := by
  simp only [isWeekend, getDay, Bool.or_eq_true, beq_iff_eq] at h
  omega

theorem dayNumber_zero_biz (t : JsDate) (hv : t.ValidDate) (h0 : t.dayNumber = 0) :
    isBusinessDay t = true := by
  obtain ⟨y, m, d⟩ := t
  obtain ⟨hm1, hm2, hd1, hd2⟩ := hv
  simp only at hm1 hm2 hd1 hd2
  have hm3 : m = 3 ∧ d = 1 := by
    simp only [JsDate.dayNumber, daysFromCivil] at h0
    interval_cases m <;> norm_num at h0 ⊢ <;> omega
  obtain ⟨hm3, hd3⟩ := hm3
  subst hm3; subst hd3
  simp only [isBusinessDay, isWeekend, isUSHoliday, getDay, h0]
  decide

theorem nonbusiness_cases (t : JsDate) (h : isBusinessDay t = false) :
    (t.dayNumber % 7 = 3 ∨ t.dayNumber % 7 = 4) ∨ isUSHoliday t = true := by
  cases hw : isWeekend t with
  | true => exact Or.inl (weekend_res t hw)
  | false =>
    refine Or.inr ?_
    simp [isBusinessDay, hw] at h
    exact h

theorem bool_eq_false {b : Bool} (h : b ≠ true) : b = false := by
  cases b
  · rfl
  · exact absurd rfl h

theorem holiday_close_absurd (a b : JsDate) (ha : isUSHoliday a = true)
    (hb : isUSHoliday b = true) (h1 : a.dayNumber < b.dayNumber)
    (h2 : b.dayNumber ≤ a.dayNumber + 3) : False := by
  have := holiday_gap a b ha hb h1
  omega

theorem business_window (t : JsDate) (hv : t.ValidDate) :
    isBusinessDay t = true ∨ isBusinessDay (prevIter 1 t) = true ∨
    isBusinessDay (prevIter 2 t) = true ∨ isBusinessDay (prevIter 3 t) = true := by
  by_contra hc
  push_neg at hc
  obtain ⟨b0, b1, b2, b3⟩ := hc
  replace b0 := bool_eq_false b0
  replace b1 := bool_eq_false b1
  replace b2 := bool_eq_false b2
  replace b3 := bool_eq_false b3
  have v1 : (prevDay t).ValidDate := prevDay_valid t hv
  have v2 : (prevDay (prevDay t)).ValidDate := prevDay_valid _ v1
  have v3 : (prevDay (prevDay (prevDay t))).ValidDate := prevDay_valid _ v2
  have p1 : prevIter 1 t = prevDay t := rfl
  have p2 : prevIter 2 t = prevDay (prevDay t) := rfl
  have p3 : prevIter 3 t = prevDay (prevDay (prevDay t)) := rfl
  rw [p1] at b1; rw [p2] at b2; rw [p3] at b3
  have n0pos : 1 ≤ t.dayNumber := by
    rcases Nat.eq_zero_or_pos t.dayNumber with h | h
    · rw [dayNumber_zero_biz t hv h] at b0; exact absurd b0 (by simp)
    · exact h
  have e1 : (prevDay t).dayNumber = t.dayNumber - 1 := dayNumber_prevDay t hv n0pos
  have n1pos : 1 ≤ (prevDay t).dayNumber := by
    rcases Nat.eq_zero_or_pos (prevDay t).dayNumber with h | h
    · rw [dayNumber_zero_biz _ v1 h] at b1; exact absurd b1 (by simp)
    · exact h
  have e2 : (prevDay (prevDay t)).dayNumber = (prevDay t).dayNumber - 1 :=
    dayNumber_prevDay _ v1 n1pos
  have n2pos : 1 ≤ (prevDay (prevDay t)).dayNumber := by
    rcases Nat.eq_zero_or_pos (prevDay (prevDay t)).dayNumber with h | h
    · rw [dayNumber_zero_biz _ v2 h] at b2; exact absurd b2 (by simp)
    · exact h
  have e3 : (prevDay (prevDay (prevDay t))).dayNumber = (prevDay (prevDay t)).dayNumber - 1 :=
    dayNumber_prevDay _ v2 n2pos
  rcases nonbusiness_cases t b0 with r0 | h0 <;>
    rcases nonbusiness_cases _ b1 with r1 | h1 <;>
      rcases nonbusiness_cases _ b2 with r2 | h2 <;>
        rcases nonbusiness_cases _ b3 with r3 | h3 <;>
          first
          | exact holiday_close_absurd _ _ h1 h0 (by omega) (by omega)
          | exact holiday_close_absurd _ _ h2 h0 (by omega) (by omega)
          | exact holiday_close_absurd _ _ h3 h0 (by omega) (by omega)
          | exact holiday_close_absurd _ _ h2 h1 (by omega) (by omega)
          | exact holiday_close_absurd _ _ h3 h1 (by omega) (by omega)
          | exact holiday_close_absurd _ _ h3 h2 (by omega) (by omega)
          | omega

theorem businessDaySearch_spec (fuel : Nat) : ∀ t : JsDate, t.ValidDate → t.dayNumber ≤ fuel →
    ∃ k, k ≤ t.dayNumber ∧ businessDaySearch fuel t = prevIter k t ∧
      isBusinessDay (prevIter k t) = true ∧
      ∀ j, j < k → isBusinessDay (prevIter j t) = false := by
  induction fuel with
  | zero =>
    intro t hv hf
    have h0 : t.dayNumber = 0 := by omega
    exact ⟨0, by omega, rfl, dayNumber_zero_biz t hv h0, by omega⟩
  | succ fuel ih =>
    intro t hv hf
    by_cases hb : isBusinessDay t = true
    · refine ⟨0, by omega, ?_, hb, by omega⟩
      simp [businessDaySearch, hb, prevIter]
    · rw [Bool.not_eq_true] at hb
      have n0pos : 1 ≤ t.dayNumber := by
        rcases Nat.eq_zero_or_pos t.dayNumber with h | h
        · rw [dayNumber_zero_biz t hv h] at hb; exact absurd hb (by simp)
        · exact h
      have v1 := prevDay_valid t hv
      have e1 := dayNumber_prevDay t hv n0pos
      obtain ⟨k, hk, hs, hbk, hbefore⟩ := ih (prevDay t) v1 (by omega)
      refine ⟨k + 1, by omega, ?_, hbk, ?_⟩
      · rw [show businessDaySearch (fuel + 1) t = businessDaySearch fuel (prevDay t) by
          simp [businessDaySearch, hb]]
        exact hs
      · intro j hj
        match j with
        | 0 => exact hb
        | j + 1 => exact hbefore j (by omega)

theorem closestBusinessDay_spec (t : JsDate) (hv : t.ValidDate) :
    ∃ k, k ≤ 3 ∧ getClosestPreviousBusinessDay t = prevIter k t ∧
      isBusinessDay (prevIter k t) = true ∧
      ∀ j, j < k → isBusinessDay (prevIter j t) = false := by
  obtain ⟨k, hk, hs, hbk, hbefore⟩ :=
    businessDaySearch_spec (t.dayNumber + 1) t hv (by omega)
  refine ⟨k, ?_, hs, hbk, hbefore⟩
  by_contra hgt
  push_neg at hgt
  rcases business_window t hv with w | w | w | w
  · have h := hbefore 0 (by omega)
    exact absurd (w.symm.trans h) (by decide)
  · have h := hbefore 1 (by omega)
    exact absurd (w.symm.trans h) (by decide)
  · have h := hbefore 2 (by omega)
    exact absurd (w.symm.trans h) (by decide)
  · have h := hbefore 3 (by omega)
    exact absurd (w.symm.trans h) (by decide)

/-! ## JavaScript number and `parseFloat` model -/

/-- Result of a JavaScript numeric conversion: NaN, a signed infinity
(`inf true` is negative), or a finite value, idealized as an exact
rational. -/
inductive PFloat where
  | nan : PFloat
  | inf : Bool → PFloat
  | val : ℚ → PFloat
deriving DecidableEq

/-- True exactly for the finite outcomes of a conversion. -/
def PFloat.isFinite : PFloat → Bool
  | PFloat.val _ => true
  | _ => false

/-- Numeric value of a digit run, most significant first. -/
def digitsVal (l : List Char) : Nat :=
  l.foldl (fun a c => a * 10 + (c.toNat - 48)) 0

/-- Models ECMAScript `parseFloat`: skip leading whitespace, read an
optional sign, then either the literal `Infinity` or the longest prefix
that is a decimal literal (digits, optional fraction, optional exponent);
NaN when no prefix parses.  The numeric value is kept exact (the host
rounds it to a double; no claim here depends on that rounding). -/
def parseFloat (s : String) : PFloat :=
  let l0 := s.data.dropWhile (fun c => c.isWhitespace)
  let sgn : Bool := match l0 with
    | '-' :: _ => true
    | _ => false
  let l1 : List Char := match l0 with
    | '-' :: r => r
    | '+' :: r => r
    | _ => l0
  if l1.take 8 = "Infinity".data then PFloat.inf sgn
  else
    let ip := l1.takeWhile Char.isDigit
    let l2 := l1.drop ip.length
    let fp : List Char := match l2 with
      | '.' :: r => r.takeWhile Char.isDigit
      | _ => []
    let l3 : List Char := match l2 with
      | '.' :: r => r.drop (r.takeWhile Char.isDigit).length
      | _ => l2
    if ip.isEmpty ∧ fp.isEmpty then PFloat.nan
    else
      let mant : ℚ := (digitsVal ip : ℚ) + (digitsVal fp : ℚ) / ((10 : ℚ) ^ fp.length)
      let ex : ℤ := match l3 with
        | c :: r =>
          if c = 'e' ∨ c = 'E' then
            let esgn : ℤ := match r with
              | '-' :: _ => -1
              | _ => 1
            let r2 : List Char := match r with
              | '-' :: rr => rr
              | '+' :: rr => rr
              | _ => r
            let ed := r2.takeWhile Char.isDigit
            if ed.isEmpty then 0 else esgn * (digitsVal ed : ℤ)
          else 0
        | [] => 0
      PFloat.val ((if sgn then -mant else mant) * (10 : ℚ) ^ ex)

/-! ## Feed, curve and cache data model -/

/-- One point of a curve, as pushed at line 304: label, months to
maturity, and the parsed yield. -/
structure YieldPoint where
  label : String
  months : Nat
  yield : PFloat
deriving DecidableEq

/-- The object built at line 313 and stored in the cache: `date`,
`yieldData`, and the provenance fields `cacheStatus` / `fromCache`. -/
structure YData where
  date : String
  yieldData : List YieldPoint
  cacheStatus : String
  fromCache : Bool
deriving DecidableEq

/-- One `<entry>` block of the feed, abstracted as its regex-extractable
parts: the `d:NEW_DATE` text (when the date regex matches) and the field
texts keyed by field name (first match wins, like the regex). -/
structure Entry where
  newDate : Option String
  fields : List (String × String)
deriving DecidableEq

/-- Text of field `name` inside the entry block, as the per-field regex
at line 299 extracts it. -/
def Entry.getField (e : Entry) (name : String) : Option String :=
  e.fields.lookup name

/-- One row of the fixed maturity table at lines 281-295. -/
structure Maturity where
  label : String
  field : String
  months : Nat
deriving DecidableEq

/-- Translation of the `maturities` table (lines 281-295). -/
def maturities : List Maturity :=
  [⟨"1M", "BC_1MONTH", 1⟩, ⟨"2M", "BC_2MONTH", 2⟩, ⟨"3M", "BC_3MONTH", 3⟩,
   ⟨"4M", "BC_4MONTH", 4⟩, ⟨"6M", "BC_6MONTH", 6⟩, ⟨"1Y", "BC_1YEAR", 12⟩,
   ⟨"2Y", "BC_2YEAR", 24⟩, ⟨"3Y", "BC_3YEAR", 36⟩, ⟨"5Y", "BC_5YEAR", 60⟩,
   ⟨"7Y", "BC_7YEAR", 84⟩, ⟨"10Y", "BC_10YEAR", 120⟩, ⟨"20Y", "BC_20YEAR", 240⟩,
   ⟨"30Y", "BC_30YEAR", 360⟩]

/-- Models `String.prototype.trim`: strip leading and trailing
whitespace. -/
def jsTrim (s : String) : String :=
  ⟨((s.data.dropWhile (fun c => c.isWhitespace)).reverse.dropWhile
      (fun c => c.isWhitespace)).reverse⟩

/-- Translation of the guard at line 301: the captured text is truthy
(non-empty), trims to non-empty, and is not the `N/A` sentinel. -/
def usableFieldText (s : String) : Bool :=
  s != "" && jsTrim s != "" && s != "N/A"

/-- Translation of the extraction loop at lines 297-311: walk the fixed
maturity table in order and push a point when the guard passes and
`parseFloat` is not NaN. -/
def extractYields (e : Entry) : List YieldPoint :=
  maturities.foldl (fun acc m =>
    match e.getField m.field with
    | some s =>
      if usableFieldText s then
        match parseFloat s with
        | PFloat.nan => acc
        | yv => acc ++ [⟨m.label, m.months, yv⟩]
      else acc
    | none => acc) []

/-- The point (if any) that maturity row `m` contributes for entry `e`;
`extractYields` is proved equal to `filterMap` of this function. -/
def maturityPoint (e : Entry) (m : Maturity) : Option YieldPoint :=
  match e.getField m.field with
  | some s =>
    if usableFieldText s then
      match parseFloat s with
      | PFloat.nan => none
      | yv => some ⟨m.label, m.months, yv⟩
    else none
  | none => none

/-! ## Entry selection (lines 237-274) -/

/-- One iteration of the closest-earlier-date loop (lines 253-262): keep
the entry when its date is valid, is at most the target, and beats the
current best strictly. -/
def closestStep (v : String → Option ℤ) (td : Option ℤ)
    (acc : Option (Entry × ℤ)) (e : Entry) : Option (Entry × ℤ) :=
  match e.newDate with
  | none => acc
  | some s =>
    match v s, td with
    | some ed, some tdv =>
      if ed ≤ tdv then
        match acc with
        | none => some (e, ed)
        | some p => if p.2 < ed then some (e, ed) else acc
      else acc
    | _, _ => acc

/-- The closest-earlier-date scan over the entry list (lines 250-262). -/
def closestScan (v : String → Option ℤ) (td : Option ℤ) :
    List Entry → Option (Entry × ℤ) → Option (Entry × ℤ)
  | [], acc => acc
  | e :: rest, acc => closestScan v td rest (closestStep v td acc e)

/-- Translation of target-entry selection (lines 237-274): with a target
date, first an exact string match of `NEW_DATE` (lines 241-244), then the
closest-earlier scan; with no target date, the last entry (line 273). -/
def selectEntry (v : String → Option ℤ) (targetDateString : Option String)
    (entries : List Entry) : Option Entry :=
  match targetDateString with
  | some ds =>
    match entries.find? (fun e => e.newDate == some ds) with
    | some e => some e
    | none => (closestScan v (v ds) entries none).map Prod.fst
  | none => entries.getLast?

/-! ## Cache and fetch pipeline (lines 144-337) -/

/-- Translation of the date-suffix computation (lines 156, 190): the
`replace` call deletes every dash from the date string. -/
def removeDashes (s : String) : String := ⟨s.data.filter (fun c => c ≠ '-')⟩

/-- Provenance marking of a cache read (lines 168-170): copy the stored
object and set `cacheStatus` / `fromCache`. -/
def markCached (d : YData) : YData :=
  { d with cacheStatus := "Cached data", fromCache := true }

/-- Translation of `getCachedData` (lines 150-176): read the per-date
file keyed by the dashless date and mark the result as cached; `none`
models a missing file and also a read or parse error (both return null).
There is no timestamp and no TTL check anywhere in this path. -/
def getCachedData (cache : String → Option YData) (dateString : String) : Option YData :=
  (cache (removeDashes dateString)).map markCached

/-- Observable outcome of one `fetchYieldDataForDate` call: the returned
value, whether the network request was issued, and the cache writes
performed (key, stored object), in order. -/
structure FetchResult where
  result : Option YData
  networkAccessed : Bool
  cacheWrites : List (String × YData)
deriving DecidableEq

/-- The catch-block fallback (lines 322-336): on any thrown error, re-read
the cache for the requested date when one was given, else return null. -/
def fetchFallback (targetDateString : Option String)
    (cache : String → Option YData) : FetchResult :=
  { result := match targetDateString with
      | some ds => getCachedData cache ds
      | none => none
    networkAccessed := true
    cacheWrites := [] }

/-- Translation of `fetchYieldDataForDate` (lines 208-337).  `v` values
the feed date strings (`new Date` comparisons), `cache` is the on-disk
cache state, and `net` is the entry-block list the feed regex produces
(`none`: request failed or no blocks matched, which the script treats
alike via the thrown error at line 234). -/
def fetchYieldDataForDate (v : String → Option ℤ) (targetDateString : Option String)
    (cache : String → Option YData) (net : Option (List Entry)) : FetchResult :=
  match (match targetDateString with
         | some ds => getCachedData cache ds
         | none => none) with
  | some d => { result := some d, networkAccessed := false, cacheWrites := [] }
  | none =>
    match net with
    | none => fetchFallback targetDateString cache
    | some entries =>
      if entries.isEmpty then fetchFallback targetDateString cache
      else
        match selectEntry v targetDateString entries with
        | none => fetchFallback targetDateString cache
        | some e =>
          let date := e.newDate.getD "Unknown"
          let r : YData := { date := date, yieldData := extractYields e,
                             cacheStatus := "Fresh data", fromCache := false }
          let actualCacheKey := targetDateString.getD date
          { result := some r, networkAccessed := true,
            cacheWrites := [(removeDashes actualCacheKey, r)] }

/-! ## History batch (lines 124-142, 352-384) -/

/-- One entry of `getHistoricalDates` output: the offset, its adjusted
date string, and the display label. -/
structure HistDate where
  daysAgo : Nat
  dateString : String
  label : String
deriving DecidableEq

/-- Outcome of one awaited historical fetch: `thrown` models an exception
(caught at line 377), `value` the returned object (possibly null). -/
inductive FetchOutcome where
  | thrown : FetchOutcome
  | value : Option YData → FetchOutcome
deriving DecidableEq

/-- One entry of the `results` object for a historical period: the
`days_N` key and the spread of the fetched data with `label` and
`daysAgo` added (lines 371-375). -/
structure HistEntry where
  key : String
  data : YData
  label : String
  daysAgo : Nat
deriving DecidableEq

/-- The `days_${daysAgo}` result key (line 371). -/
def histKey (n : Nat) : String := "days_" ++ toString n

/-- Translation of the historical loop of `fetchAllYieldData` (lines
366-380): per date, a thrown error is caught and skipped, a null result
or an empty `yieldData` is skipped, and a non-empty result is recorded
under its `days_N` key; the loop always continues to the next offset. -/
def fetchHistorical (resolver : String → FetchOutcome) : List HistDate → List HistEntry
  | [] => []
  | h :: rest =>
    (match resolver h.dateString with
     | FetchOutcome.value (some d) =>
       if 0 < d.yieldData.length then [⟨histKey h.daysAgo, d, h.label, h.daysAgo⟩] else []
     | _ => []) ++ fetchHistorical resolver rest

/-- Translation of `fetchAllYieldData` (lines 352-384): the current fetch
result (kept when non-null) together with the historical entries. -/
def fetchAllYieldData (currentData : Option YData) (hists : List HistDate)
    (resolver : String → FetchOutcome) : Option YData × List HistEntry :=
  (currentData, fetchHistorical resolver hists)

/-! ## Sanity checks of the `parseFloat` model -/

theorem parseFloat_decimal : PFloat.isFinite (parseFloat "4.19") = true := by decide

theorem parseFloat_empty : parseFloat "" = PFloat.nan := by decide

theorem parseFloat_na : parseFloat "N/A" = PFloat.nan := by decide

theorem parseFloat_infinity : parseFloat "Infinity" = PFloat.inf false := by decide

/-! ## Claim theorems -/

/-- C1: for every `AsOf(D)` request with a cache entry under key `D`, the
resolver returns that entry marked `Cached` (`cacheStatus` [string]
`Cached data`, `fromCache` true), issues no network request and writes
nothing, for every cache state, network state and entry age: no TTL
check exists in the cache-read path (the model carries no timestamp at
all, and the result does not depend on `net`). -/
theorem C1_cached_asof_no_ttl (v : String → Option ℤ) (ds : String)
    (cache : String → Option YData) (net : Option (List Entry)) (d : YData)
    (h : cache (removeDashes ds) = some d) :
    fetchYieldDataForDate v (some ds) cache net =
      { result := some (markCached d), networkAccessed := false, cacheWrites := [] } := by
  simp [fetchYieldDataForDate, getCachedData, h]

/-- Witness for C1 at a concrete cache state. -/
theorem C1_cached_asof_no_ttl_witness :
    fetchYieldDataForDate (fun _ => none) (some "2024-07-25")
      (fun k => if k = "20240725"
        then some ⟨"2024-07-25", [⟨"10Y", 120, PFloat.inf false⟩], "Fresh data", false⟩
        else none) none
      = { result := some ⟨"2024-07-25", [⟨"10Y", 120, PFloat.inf false⟩], "Cached data", true⟩,
          networkAccessed := false, cacheWrites := [] } :=
  C1_cached_asof_no_ttl (fun _ => none) "2024-07-25"
    (fun k => if k = "20240725"
      then some ⟨"2024-07-25", [⟨"10Y", 120, PFloat.inf false⟩], "Fresh data", false⟩
      else none) none
    ⟨"2024-07-25", [⟨"10Y", 120, PFloat.inf false⟩], "Fresh data", false⟩ (by decide)

/-- C2: when the fetch or the parse fails (request error or no entry
blocks, or no block at or before the target date), the `AsOf(D)` resolver
falls back to the cache entry for `D` marked `Cached` when one exists and
returns null otherwise; the fault never propagates. -/
theorem C2_failure_fallback (v : String → Option ℤ) (ds : String)
    (cache : String → Option YData) (net : Option (List Entry))
    (h : net = none ∨ ∃ es, net = some es ∧
      (es = [] ∨ selectEntry v (some ds) es = none)) :
    (fetchYieldDataForDate v (some ds) cache net).result =
      match cache (removeDashes ds) with
      | some d => some (markCached d)
      | none => none := by
  rcases hc : cache (removeDashes ds) with _ | d
  · have hg : getCachedData cache ds = none := by simp [getCachedData, hc]
    rcases h with h | ⟨es, hes, h⟩
    · subst h
      simp [fetchYieldDataForDate, fetchFallback, hg]
    · subst hes
      by_cases he : es.isEmpty
      · simp [fetchYieldDataForDate, fetchFallback, hg, he]
      · rcases h with h | h
        · subst h; simp at he
        · simp [fetchYieldDataForDate, fetchFallback, hg, he, h]
  · simp [fetchYieldDataForDate, getCachedData, hc]

/-- Witness for C2: failed request with a prior cache entry, and failed
request with an empty cache. -/
theorem C2_failure_fallback_witness :
    (fetchYieldDataForDate (fun _ => none) (some "2024-07-25")
      (fun k => if k = "20240725"
        then some ⟨"2024-07-25", [], "Fresh data", false⟩ else none) none).result
      = some ⟨"2024-07-25", [], "Cached data", true⟩ ∧
    (fetchYieldDataForDate (fun _ => none) (some "2024-07-25")
      (fun _ => none) none).result = none :=
  ⟨C2_failure_fallback _ _ _ _ (Or.inl rfl), C2_failure_fallback _ _ _ _ (Or.inl rfl)⟩

/-! ## Entry-selection lemmas -/

/-- The step result is the accumulator or the qualifying current entry. -/
theorem closestStep_cases (v : String → Option ℤ) (td : Option ℤ)
    (acc : Option (Entry × ℤ)) (e : Entry) :
    closestStep v td acc e = acc ∨
      ∃ s ed tdv, e.newDate = some s ∧ v s = some ed ∧ td = some tdv ∧ ed ≤ tdv ∧
        closestStep v td acc e = some (e, ed) ∧
        (∀ p, acc = some p → p.2 < ed) := by
  rcases hn : e.newDate with _ | s
  · exact Or.inl (by simp [closestStep, hn])
  · rcases hv : v s with _ | ed
    · exact Or.inl (by simp [closestStep, hn, hv])
    · rcases ht : td with _ | tdv
      · exact Or.inl (by simp [closestStep, hn, hv])
      · by_cases hle : ed ≤ tdv
        · rcases ha : acc with _ | p
          · refine Or.inr ⟨s, ed, tdv, rfl, hv, rfl, hle, ?_, ?_⟩
            · simp [closestStep, hn, hv, hle, ha]
            · intro q hq
              exact absurd hq (by simp)
          · by_cases hlt : p.2 < ed
            · refine Or.inr ⟨s, ed, tdv, rfl, hv, rfl, hle, ?_, ?_⟩
              · simp [closestStep, hn, hv, hle, ha, hlt]
              · intro q hq
                cases hq
                exact hlt
            · refine Or.inl ?_
              simp [closestStep, hn, hv, hle, ha, hlt]
        · exact Or.inl (by simp [closestStep, hn, hv, hle])

/-- The step never decreases the best value. -/
theorem closestStep_mono (v : String → Option ℤ) (td : Option ℤ)
    (p : Entry × ℤ) (e : Entry) (q : Entry × ℤ)
    (h : closestStep v td (some p) e = some q) : p.2 ≤ q.2 := by
  rcases closestStep_cases v td (some p) e with hc | ⟨s, ed, tdv, _, _, _, _, hc, hgt⟩
  · rw [hc] at h
    cases h
    exact Int.le_refl _
  · rw [hc] at h
    cases h
    exact Int.le_of_lt (hgt p rfl)

/-- The scan never loses the accumulator: from `some p` the result is some
`q` with `p.2 ≤ q.2`. -/
theorem closestScan_mono (v : String → Option ℤ) (td : Option ℤ) :
    ∀ (l : List Entry) (p : Entry × ℤ),
      ∃ q, closestScan v td l (some p) = some q ∧ p.2 ≤ q.2 := by
  intro l
  induction l with
  | nil => exact fun p => ⟨p, rfl, Int.le_refl _⟩
  | cons e rest ih =>
    intro p
    rcases closestStep_cases v td (some p) e with hc | ⟨s, ed, tdv, _, _, _, _, hc, hgt⟩
    · rw [show closestScan v td (e :: rest) (some p) = closestScan v td rest (closestStep v td (some p) e) from rfl, hc]
      exact ih p
    · rw [show closestScan v td (e :: rest) (some p) = closestScan v td rest (closestStep v td (some p) e) from rfl, hc]
      obtain ⟨q, hq, hle⟩ := ih (e, ed)
      exact ⟨q, hq, Int.le_trans (Int.le_of_lt (hgt p rfl)) hle⟩

/-- Any result of the scan is the initial accumulator or a qualifying
member of the list. -/
theorem closestScan_mem (v : String → Option ℤ) (td : Option ℤ) :
    ∀ (l : List Entry) (acc : Option (Entry × ℤ)) (q : Entry × ℤ),
      closestScan v td l acc = some q →
      acc = some q ∨ (q.1 ∈ l ∧ ∃ s tdv, q.1.newDate = some s ∧ v s = some q.2 ∧
        td = some tdv ∧ q.2 ≤ tdv) := by
  intro l
  induction l with
  | nil =>
    intro acc q h
    exact Or.inl h
  | cons e rest ih =>
    intro acc q h
    rw [show closestScan v td (e :: rest) acc = closestScan v td rest (closestStep v td acc e) from rfl] at h
    rcases ih _ q h with hacc | ⟨hmem, s, tdv, h1, h2, h3, h4⟩
    · rcases closestStep_cases v td acc e with hc | ⟨s, ed, tdv, h1, h2, h3, h4, hc, _⟩
      · rw [hc] at hacc
        exact Or.inl hacc
      · rw [hc] at hacc
        cases hacc
        exact Or.inr ⟨List.mem_cons_self e rest, s, tdv, h1, h2, h3, h4⟩
    · exact Or.inr ⟨List.mem_cons_of_mem e hmem, s, tdv, h1, h2, h3, h4⟩

/-- Every qualifying date in the list is at most the scanned best. -/
theorem closestScan_max (v : String → Option ℤ) (td : Option ℤ) :
    ∀ (l : List Entry) (acc : Option (Entry × ℤ)) (q : Entry × ℤ),
      closestScan v td l acc = some q →
      ∀ e s d tdv, e ∈ l → e.newDate = some s → v s = some d → td = some tdv →
        d ≤ tdv → d ≤ q.2 := by
  intro l
  induction l with
  | nil => intro acc q h e s d tdv hmem; exact absurd hmem (List.not_mem_nil e)
  | cons e0 rest ih =>
    intro acc q h e s d tdv hmem hn hv ht hle
    rw [show closestScan v td (e0 :: rest) acc
        = closestScan v td rest (closestStep v td acc e0) from rfl] at h
    rcases List.mem_cons.1 hmem with he | he
    · subst he
      subst ht
      have hstep : closestStep v (some tdv) acc e = some (e, d) ∨
          (∃ p, acc = some p ∧ d ≤ p.2 ∧ closestStep v (some tdv) acc e = acc) := by
        rcases ha : acc with _ | p
        · exact Or.inl (by simp [closestStep, hn, hv, hle])
        · by_cases hlt : p.2 < d
          · exact Or.inl (by simp [closestStep, hn, hv, hle, hlt])
          · exact Or.inr ⟨p, rfl, by omega, by simp [closestStep, hn, hv, hle, hlt]⟩
      rcases hstep with hstep | ⟨p, hacc, hdp, hstep⟩
      · rw [hstep] at h
        obtain ⟨q2, hq2, hle2⟩ := closestScan_mono v (some tdv) rest (e, d)
        rw [hq2] at h
        cases h
        exact hle2
      · rw [hstep, hacc] at h
        obtain ⟨q2, hq2, hle2⟩ := closestScan_mono v (some tdv) rest p
        rw [hq2] at h
        cases h
        omega
    · exact ih _ q h e s d tdv he hn hv ht hle

/-- When no entry has a valid date at most the target, the scan stays
empty. -/
theorem closestScan_none_of (v : String → Option ℤ) (td : Option ℤ) :
    ∀ l : List Entry,
      (∀ e ∈ l, ∀ s, e.newDate = some s → ∀ d, v s = some d →
        ∀ tdv, td = some tdv → tdv < d) →
      closestScan v td l none = none := by
  intro l
  induction l with
  | nil => intro _; rfl
  | cons e rest ih =>
    intro hall
    rw [show closestScan v td (e :: rest) none
        = closestScan v td rest (closestStep v td none e) from rfl]
    have hstep : closestStep v td none e = none := by
      rcases hn : e.newDate with _ | s
      · simp [closestStep, hn]
      · rcases hv : v s with _ | ed
        · simp [closestStep, hn, hv]
        · rcases ht : td with _ | tdv
          · simp [closestStep, hn, hv]
          · have := hall e (List.mem_cons_self e rest) s hn ed hv tdv ht
            simp [closestStep, hn, hv]
            omega
    rw [hstep]
    exact ih (fun e2 h2 => hall e2 (List.mem_cons_of_mem e h2))

/-- When some entry matches the predicate, `find?` returns a matching
entry. -/
theorem find_exact (ds : String) :
    ∀ l : List Entry, (∃ e ∈ l, e.newDate = some ds) →
      ∃ e, l.find? (fun e => e.newDate == some ds) = some e ∧ e.newDate = some ds := by
  intro l
  induction l with
  | nil => rintro ⟨e, hmem, _⟩; exact absurd hmem (List.not_mem_nil e)
  | cons e0 rest ih =>
    rintro ⟨e, hmem, hdate⟩
    by_cases h0 : e0.newDate = some ds
    · exact ⟨e0, by simp [List.find?, h0], h0⟩
    · have hmem2 : e ∈ rest := by
        rcases List.mem_cons.1 hmem with he | he
        · subst he; exact absurd hdate h0
        · exact he
      obtain ⟨e2, hf, hd⟩ := ih ⟨e, hmem2, hdate⟩
      refine ⟨e2, ?_, hd⟩
      rw [List.find?]
      rw [show (e0.newDate == some ds) = false from by
        rcases hq : e0.newDate == some ds
        · rfl
        · exact absurd (beq_iff_eq.1 hq) h0]
      exact hf

/-- A qualifying entry (valid date at most the target) guarantees the
closest-earlier scan returns a result, whatever the accumulator. -/
theorem closestScan_some_of (v : String → Option ℤ) (td : Option ℤ) :
    ∀ (l : List Entry) (acc : Option (Entry × ℤ)),
      (∃ e ∈ l, ∃ s d tdv, e.newDate = some s ∧ v s = some d ∧
        td = some tdv ∧ d ≤ tdv) →
      ∃ q, closestScan v td l acc = some q := by
  intro l
  induction l with
  | nil =>
    rintro acc ⟨e, hmem, _⟩
    exact absurd hmem (List.not_mem_nil e)
  | cons e0 rest ih =>
    rintro acc ⟨e, hmem, s, d, tdv, hn, hvs, ht, hle⟩
    rw [show closestScan v td (e0 :: rest) acc
        = closestScan v td rest (closestStep v td acc e0) from rfl]
    rcases List.mem_cons.1 hmem with he | he
    · subst he
      have hstep : ∃ p, closestStep v td acc e = some p := by
        subst ht
        rcases ha : acc with _ | p
        · exact ⟨(e, d), by simp [closestStep, hn, hvs, hle]⟩
        · by_cases hlt : p.2 < d
          · exact ⟨(e, d), by simp [closestStep, hn, hvs, hle, hlt]⟩
          · exact ⟨p, by simp [closestStep, hn, hvs, hle, hlt]⟩
      obtain ⟨p, hp⟩ := hstep
      rw [hp]
      obtain ⟨q, hq, _⟩ := closestScan_mono v td rest p
      exact ⟨q, hq⟩
    · exact ih _ ⟨e, he, s, d, tdv, hn, hvs, ht, hle⟩

/-- C3: record-block selection.  (1) With a target date, an exactly
matching block is selected whenever one exists.  (2) With no exact match
but at least one block whose valid date is at most the target, selection
succeeds, and the selected block is a member whose valid date is at most
the target and at least every other valid block date that is at most the
target (the closest-prior-date fallback).  (3) With no exact match,
selection fails precisely when no block has a valid date at most the
target (the no-data error path).  (4) With a null target, the last block
is selected and the returned curve carries that block date. -/
theorem C3_record_block_selection (v : String → Option ℤ) (ds : String)
    (entries : List Entry) :
    ((∃ e ∈ entries, e.newDate = some ds) →
      ∃ e, selectEntry v (some ds) entries = some e ∧ e.newDate = some ds)
    ∧ ((¬ ∃ e ∈ entries, e.newDate = some ds) →
      (∃ e0 ∈ entries, ∃ s0 d0 tdv0, e0.newDate = some s0 ∧ v s0 = some d0 ∧
        v ds = some tdv0 ∧ d0 ≤ tdv0) →
      ∃ e, selectEntry v (some ds) entries = some e ∧ e ∈ entries ∧
        ∃ s d tdv, e.newDate = some s ∧ v s = some d ∧ v ds = some tdv ∧
          d ≤ tdv ∧ ∀ e2 s2 d2, e2 ∈ entries → e2.newDate = some s2 → v s2 = some d2 →
            d2 ≤ tdv → d2 ≤ d)
    ∧ ((¬ ∃ e ∈ entries, e.newDate = some ds) →
      (selectEntry v (some ds) entries = none ↔
        ¬ ∃ e0 ∈ entries, ∃ s0 d0 tdv0, e0.newDate = some s0 ∧ v s0 = some d0 ∧
          v ds = some tdv0 ∧ d0 ≤ tdv0))
    ∧ (∀ (cache : String → Option YData) (e : Entry) (dl : String),
      entries.getLast? = some e → e.newDate = some dl →
      (fetchYieldDataForDate v none cache (some entries)).result =
        some ⟨dl, extractYields e, "Fresh data", false⟩) := by
  have hfind : (¬ ∃ e ∈ entries, e.newDate = some ds) →
      entries.find? (fun e => e.newDate == some ds) = none := by
    intro hnone
    rw [List.find?_eq_none]
    intro x hx hc
    exact hnone ⟨x, hx, beq_iff_eq.1 hc⟩
  have hsucc : (¬ ∃ e ∈ entries, e.newDate = some ds) →
      (∃ e0 ∈ entries, ∃ s0 d0 tdv0, e0.newDate = some s0 ∧ v s0 = some d0 ∧
        v ds = some tdv0 ∧ d0 ≤ tdv0) →
      ∃ e, selectEntry v (some ds) entries = some e ∧ e ∈ entries ∧
        ∃ s d tdv, e.newDate = some s ∧ v s = some d ∧ v ds = some tdv ∧
          d ≤ tdv ∧ ∀ e2 s2 d2, e2 ∈ entries → e2.newDate = some s2 → v s2 = some d2 →
            d2 ≤ tdv → d2 ≤ d := by
    intro hnone hex
    have hf := hfind hnone
    obtain ⟨q, hscan⟩ := closestScan_some_of v (v ds) entries none hex
    refine ⟨q.1, by simp [selectEntry, hf, hscan], ?_⟩
    rcases closestScan_mem v (v ds) entries none q hscan with hacc | ⟨hmem, s, tdv, h1, h2, h3, h4⟩
    · exact absurd hacc (by simp)
    · refine ⟨hmem, s, q.2, tdv, h1, h2, h3, h4, ?_⟩
      intro e2 s2 d2 hm2 hn2 hv2 hle2
      exact closestScan_max v (v ds) entries none q hscan e2 s2 d2 tdv hm2 hn2 hv2 h3 hle2
  refine ⟨?_, hsucc, ?_, ?_⟩
  · intro hex
    obtain ⟨e, hf, hd⟩ := find_exact ds entries hex
    exact ⟨e, by simp [selectEntry, hf], hd⟩
  · intro hnone
    constructor
    · intro hsel hex
      obtain ⟨e, hse, _⟩ := hsucc hnone hex
      rw [hsel] at hse
      cases hse
    · intro hnoq
      have hf := hfind hnone
      have hall : ∀ e ∈ entries, ∀ s, e.newDate = some s → ∀ d, v s = some d →
          ∀ tdv, v ds = some tdv → tdv < d := by
        intro e hmem s hn d hv tdv ht
        by_contra hlt
        push_neg at hlt
        exact hnoq ⟨e, hmem, s, d, tdv, hn, hv, ht, hlt⟩
      have hscan := closestScan_none_of v (v ds) entries hall
      simp [selectEntry, hf, hscan]
  · intro cache e dl hlast hdl
    have hemp : entries.isEmpty = false := by
      rcases entries with _ | ⟨x, xs⟩
      · simp at hlast
      · rfl
    simp [fetchYieldDataForDate, fetchFallback, selectEntry, hemp, hlast, hdl]

/-- Witness for C3: on a concrete feed with blocks dated 2024-07-23 and
2024-07-24 and target 2024-07-25 (no exact match, both blocks qualify),
selection succeeds and picks the closest prior block. -/
theorem C3_record_block_selection_witness :
    ∃ e, selectEntry
        (fun s => if s = "2024-07-23" then some (23 : ℤ) else
          if s = "2024-07-24" then some 24 else
          if s = "2024-07-25" then some 25 else none)
        (some "2024-07-25")
        [⟨some "2024-07-23", []⟩, ⟨some "2024-07-24", []⟩] = some e ∧
      e ∈ ([⟨some "2024-07-23", []⟩, ⟨some "2024-07-24", []⟩] : List Entry) ∧
      ∃ s d tdv, e.newDate = some s ∧
        (fun s => if s = "2024-07-23" then some (23 : ℤ) else
          if s = "2024-07-24" then some 24 else
          if s = "2024-07-25" then some 25 else none) s = some d ∧
        (fun s => if s = "2024-07-23" then some (23 : ℤ) else
          if s = "2024-07-24" then some 24 else
          if s = "2024-07-25" then some 25 else none) "2024-07-25" = some tdv ∧
        d ≤ tdv ∧ ∀ e2 s2 d2,
          e2 ∈ ([⟨some "2024-07-23", []⟩, ⟨some "2024-07-24", []⟩] : List Entry) →
          e2.newDate = some s2 →
          (fun s => if s = "2024-07-23" then some (23 : ℤ) else
            if s = "2024-07-24" then some 24 else
            if s = "2024-07-25" then some 25 else none) s2 = some d2 →
          d2 ≤ tdv → d2 ≤ d :=
  (C3_record_block_selection
      (fun s => if s = "2024-07-23" then some (23 : ℤ) else
        if s = "2024-07-24" then some 24 else
        if s = "2024-07-25" then some 25 else none)
      "2024-07-25"
      [⟨some "2024-07-23", []⟩, ⟨some "2024-07-24", []⟩]).2.1
    (by decide)
    ⟨⟨some "2024-07-23", []⟩, by decide, "2024-07-23", 23, 25, rfl, by decide, by decide,
      by decide⟩


/-! ## Extraction lemmas -/

theorem usableFieldText_iff (s : String) :
    usableFieldText s = true ↔ (s ≠ "" ∧ jsTrim s ≠ "" ∧ s ≠ "N/A") := by
  simp [usableFieldText, Bool.and_eq_true, bne_iff_ne, and_assoc]

theorem maturityPoint_some (e : Entry) (m : Maturity) (p : YieldPoint)
    (h : maturityPoint e m = some p) :
    p.label = m.label ∧ p.months = m.months ∧
    ∃ s, e.getField m.field = some s ∧ usableFieldText s = true ∧
      parseFloat s ≠ PFloat.nan ∧ p.yield = parseFloat s := by
  rcases hf : e.getField m.field with _ | s
  · simp [maturityPoint, hf] at h
  · by_cases hu : usableFieldText s
    · rcases hp : parseFloat s with _ | b | q
      · simp [maturityPoint, hf, hu, hp] at h
      · simp only [maturityPoint, hf, hu, hp, if_true] at h
        cases h
        exact ⟨rfl, rfl, s, rfl, hu, by simp [hp], by simp [hp]⟩
      · simp only [maturityPoint, hf, hu, hp, if_true] at h
        cases h
        exact ⟨rfl, rfl, s, rfl, hu, by simp [hp], by simp [hp]⟩
    · simp [maturityPoint, hf, hu] at h

theorem maturityPoint_of (e : Entry) (m : Maturity) (s : String)
    (hf : e.getField m.field = some s) (hu : usableFieldText s = true)
    (hp : parseFloat s ≠ PFloat.nan) :
    maturityPoint e m = some ⟨m.label, m.months, parseFloat s⟩ := by
  rcases hps : parseFloat s with _ | b | q
  · exact absurd hps hp
  · simp [maturityPoint, hf, hu, hps]
  · simp [maturityPoint, hf, hu, hps]

theorem extractYields_body (e : Entry) (acc : List YieldPoint) (m : Maturity) :
    (match e.getField m.field with
     | some s =>
       if usableFieldText s then
         match parseFloat s with
         | PFloat.nan => acc
         | yv => acc ++ [⟨m.label, m.months, yv⟩]
       else acc
     | none => acc)
    = match maturityPoint e m with
      | none => acc
      | some p => acc ++ [p] := by
  rcases hf : e.getField m.field with _ | s
  · simp [maturityPoint, hf]
  · by_cases hu : usableFieldText s
    · rcases hp : parseFloat s with _ | b | q
      · simp [maturityPoint, hf, hu, hp]
      · simp [maturityPoint, hf, hu, hp]
      · simp [maturityPoint, hf, hu, hp]
    · simp [maturityPoint, hf, hu]

theorem extractYields_foldl (e : Entry) :
    ∀ (l : List Maturity) (acc : List YieldPoint),
      l.foldl (fun acc m =>
        match e.getField m.field with
        | some s =>
          if usableFieldText s then
            match parseFloat s with
            | PFloat.nan => acc
            | yv => acc ++ [⟨m.label, m.months, yv⟩]
          else acc
        | none => acc) acc = acc ++ l.filterMap (maturityPoint e) := by
  intro l
  induction l with
  | nil => intro acc; simp
  | cons m rest ih =>
    intro acc
    rw [List.foldl_cons, extractYields_body e acc m]
    rcases hp : maturityPoint e m with _ | p
    · simp [hp, List.filterMap_cons, ih]
    · simp [hp, List.filterMap_cons, ih]

theorem extractYields_eq (e : Entry) :
    extractYields e = maturities.filterMap (maturityPoint e) := by
  rw [extractYields, extractYields_foldl]
  rfl

theorem maturities_labels_distinct :
    ∀ m1 ∈ maturities, ∀ m2 ∈ maturities, m1.label = m2.label → m1 = m2 := by decide

theorem filterMap_months (e : Entry) :
    ∀ l : List Maturity, (l.filterMap (maturityPoint e)).map YieldPoint.months =
      (l.filter (fun m2 => (maturityPoint e m2).isSome)).map Maturity.months := by
  intro l
  induction l with
  | nil => rfl
  | cons m rest ih =>
    rcases hp : maturityPoint e m with _ | p
    · simp [List.filterMap_cons, List.filter_cons, hp, ih]
    · have hmo := (maturityPoint_some e m p hp).2.1
      simp [List.filterMap_cons, List.filter_cons, hp, ih, hmo]

/-- Counterexample for C7 as stated: a field whose text is `Infinity` is
present, non-blank and not the sentinel, and `parseFloat` yields a
non-NaN but non-finite value, yet the extraction loop does include the
point (the code tests `isNaN` only, not finiteness). -/
theorem C7_maturity_filter_counterexample :
    extractYields ⟨some "2024-07-25", [("BC_1MONTH", "Infinity")]⟩ =
      [⟨"1M", 1, PFloat.inf false⟩] ∧
    usableFieldText "Infinity" = true ∧
    PFloat.isFinite (parseFloat "Infinity") = false := by decide

/-- C7 (amended): a maturity field contributes a point exactly when its
text is present, non-empty, trims to non-empty, is not `N/A`, and
`parseFloat` does not yield NaN (finiteness is not required: an
`Infinity` text is accepted); and the point sequence always follows the
fixed maturity-month table order 1, 2, 3, 4, 6, 12, 24, 36, 60, 84, 120,
240, 360 restricted to the fields present. -/
theorem C7_maturity_filtering (e : Entry) (m : Maturity) (hm : m ∈ maturities) :
    ((∃ p ∈ extractYields e, p.label = m.label) ↔
      ∃ s, e.getField m.field = some s ∧ s ≠ "" ∧ jsTrim s ≠ "" ∧ s ≠ "N/A" ∧
        parseFloat s ≠ PFloat.nan)
    ∧ (extractYields e).map YieldPoint.months =
        (maturities.filter (fun m2 => (maturityPoint e m2).isSome)).map Maturity.months
    ∧ maturities.map Maturity.months = [1, 2, 3, 4, 6, 12, 24, 36, 60, 84, 120, 240, 360] := by
  refine ⟨⟨?_, ?_⟩, ?_, by decide⟩
  · rintro ⟨p, hp, hl⟩
    rw [extractYields_eq] at hp
    obtain ⟨m2, hm2, hpt⟩ := List.mem_filterMap.1 hp
    obtain ⟨hl2, _, s, hf, hu, hnan, _⟩ := maturityPoint_some e m2 p hpt
    have hm2m : m2 = m := maturities_labels_distinct m2 hm2 m hm (hl2 ▸ hl)
    subst hm2m
    obtain ⟨h1, h2, h3⟩ := (usableFieldText_iff s).1 hu
    exact ⟨s, hf, h1, h2, h3, hnan⟩
  · rintro ⟨s, hf, h1, h2, h3, hnan⟩
    have hu : usableFieldText s = true := (usableFieldText_iff s).2 ⟨h1, h2, h3⟩
    have hpt := maturityPoint_of e m s hf hu hnan
    refine ⟨⟨m.label, m.months, parseFloat s⟩, ?_, rfl⟩
    rw [extractYields_eq]
    exact List.mem_filterMap.2 ⟨m, hm, hpt⟩
  · exact filterMap_months e maturities ▸ (extractYields_eq e ▸ rfl)

/-- Witness for C7 at a concrete entry whose only field is the 1-month
yield with text `Infinity`. -/
theorem C7_maturity_filtering_witness :
    ((∃ p ∈ extractYields ⟨some "2024-07-25", [("BC_1MONTH", "Infinity")]⟩,
        p.label = (⟨"1M", "BC_1MONTH", 1⟩ : Maturity).label) ↔
      ∃ s, Entry.getField ⟨some "2024-07-25", [("BC_1MONTH", "Infinity")]⟩
          (⟨"1M", "BC_1MONTH", 1⟩ : Maturity).field = some s ∧
        s ≠ "" ∧ jsTrim s ≠ "" ∧ s ≠ "N/A" ∧ parseFloat s ≠ PFloat.nan)
    ∧ (extractYields ⟨some "2024-07-25", [("BC_1MONTH", "Infinity")]⟩).map YieldPoint.months =
        (maturities.filter (fun m2 =>
          (maturityPoint ⟨some "2024-07-25", [("BC_1MONTH", "Infinity")]⟩ m2).isSome)).map
          Maturity.months
    ∧ maturities.map Maturity.months = [1, 2, 3, 4, 6, 12, 24, 36, 60, 84, 120, 240, 360] :=
  C7_maturity_filtering ⟨some "2024-07-25", [("BC_1MONTH", "Infinity")]⟩
    ⟨"1M", "BC_1MONTH", 1⟩ (by decide)

/-- Counterexample for C4 as stated: a reachable feed whose selected
block yields zero usable points is not treated as a fetch failure — the
zero-point curve is returned as `Fresh` and persisted to the cache (the
fallback path would return null and write nothing). -/
theorem C4_empty_curve_counterexample :
    fetchYieldDataForDate (fun _ => none) (some "2024-07-25") (fun _ => none)
        (some [⟨some "2024-07-25", []⟩]) =
      { result := some ⟨"2024-07-25", [], "Fresh data", false⟩,
        networkAccessed := true,
        cacheWrites := [("20240725", ⟨"2024-07-25", [], "Fresh data", false⟩)] } := by decide

/-- C4 (amended): when the selected block yields zero usable points, the
resolver still returns the `Fresh` zero-point curve and caches it (no
failure path is taken); the zero-point curve only becomes equivalent to
absence at the callers, e.g. the history batch drops results with an
empty point sequence. -/
theorem C4_empty_curve_returned (v : String → Option ℤ) (ds : String)
    (cache : String → Option YData) (entries : List Entry) (e : Entry)
    (hc : cache (removeDashes ds) = none)
    (hne : entries.isEmpty = false)
    (hsel : selectEntry v (some ds) entries = some e)
    (hext : extractYields e = []) :
    fetchYieldDataForDate v (some ds) cache (some entries) =
      { result := some ⟨e.newDate.getD "Unknown", [], "Fresh data", false⟩,
        networkAccessed := true,
        cacheWrites := [(removeDashes ds, ⟨e.newDate.getD "Unknown", [], "Fresh data", false⟩)] }
    ∧ ∀ (h : HistDate) (resolver : String → FetchOutcome) (d : YData),
        resolver h.dateString = FetchOutcome.value (some d) → d.yieldData = [] →
        fetchHistorical resolver [h] = [] := by
  constructor
  · simp [fetchYieldDataForDate, getCachedData, hc, hne, hsel, hext]
  · intro h resolver d hres hd
    simp [fetchHistorical, hres, hd]

/-- Witness for C4 at a concrete feed whose only block has no fields. -/
theorem C4_empty_curve_returned_witness :
    (fetchYieldDataForDate (fun _ => none) (some "2024-07-26") (fun _ => none)
        (some [⟨some "2024-07-26", []⟩]) =
      { result := some ⟨"2024-07-26", [], "Fresh data", false⟩,
        networkAccessed := true,
        cacheWrites := [("20240726", ⟨"2024-07-26", [], "Fresh data", false⟩)] })
    ∧ ∀ (h : HistDate) (resolver : String → FetchOutcome) (d : YData),
        resolver h.dateString = FetchOutcome.value (some d) → d.yieldData = [] →
        fetchHistorical resolver [h] = [] :=
  C4_empty_curve_returned (fun _ => none) "2024-07-26" (fun _ => none)
    [⟨some "2024-07-26", []⟩] ⟨some "2024-07-26", []⟩
    (by decide) (by decide) (by decide) (by decide)

/-- Counterexample for C5 as stated: an `AsOf(2024-07-26)` request that
resolves by closest-prior fallback to the 2024-07-25 block is cached
under the requested key `20240726`, not under the resolved date key
`20240725`. -/
theorem C5_cache_key_counterexample :
    (fetchYieldDataForDate
        (fun s => if s = "2024-07-25" then some (25 : ℤ) else
          if s = "2024-07-26" then some 26 else none)
        (some "2024-07-26") (fun _ => none)
        (some [⟨some "2024-07-25", []⟩])).cacheWrites.map Prod.fst = ["20240726"] ∧
    ((fetchYieldDataForDate
        (fun s => if s = "2024-07-25" then some (25 : ℤ) else
          if s = "2024-07-26" then some 26 else none)
        (some "2024-07-26") (fun _ => none)
        (some [⟨some "2024-07-25", []⟩])).result.map YData.date) = some "2024-07-25" ∧
    removeDashes "2024-07-25" ≠ "20240726" := by decide

/-- C5 (amended): a successful fetch is persisted under the requested
date when a target date was given — even when the curve resolved to a
different (closest-prior) date — and under the extracted feed date only
for a Current (no-target) request. -/
theorem C5_cache_key (v : String → Option ℤ) (ds : String)
    (cache : String → Option YData) (entries : List Entry) (e : Entry)
    (hc : cache (removeDashes ds) = none)
    (hne : entries.isEmpty = false)
    (hsel : selectEntry v (some ds) entries = some e) :
    (fetchYieldDataForDate v (some ds) cache (some entries)).cacheWrites =
      [(removeDashes ds, ⟨e.newDate.getD "Unknown", extractYields e, "Fresh data", false⟩)]
    ∧ ∀ (entries2 : List Entry) (e2 : Entry) (dl : String),
        entries2.getLast? = some e2 → e2.newDate = some dl →
        (fetchYieldDataForDate v none cache (some entries2)).cacheWrites =
          [(removeDashes dl, ⟨dl, extractYields e2, "Fresh data", false⟩)] := by
  constructor
  · simp [fetchYieldDataForDate, getCachedData, hc, hne, hsel]
  · intro entries2 e2 dl hlast hdl
    have hemp : entries2.isEmpty = false := by
      rcases entries2 with _ | ⟨x, xs⟩
      · simp at hlast
      · rfl
    simp [fetchYieldDataForDate, fetchFallback, selectEntry, hemp, hlast, hdl]

/-- Witness for C5: fallback resolution of 2024-07-26 to the 2024-07-25
block, cached under the requested key. -/
theorem C5_cache_key_witness :
    (fetchYieldDataForDate
        (fun s => if s = "2024-07-25" then some (25 : ℤ) else
          if s = "2024-07-26" then some 26 else none)
        (some "2024-07-26") (fun _ => none)
        (some [⟨some "2024-07-25", []⟩])).cacheWrites =
      [(removeDashes "2024-07-26",
        ⟨(Entry.newDate ⟨some "2024-07-25", []⟩).getD "Unknown",
          extractYields ⟨some "2024-07-25", []⟩, "Fresh data", false⟩)]
    ∧ ∀ (entries2 : List Entry) (e2 : Entry) (dl : String),
        entries2.getLast? = some e2 → e2.newDate = some dl →
        (fetchYieldDataForDate
            (fun s => if s = "2024-07-25" then some (25 : ℤ) else
              if s = "2024-07-26" then some 26 else none)
            none (fun _ => none) (some entries2)).cacheWrites =
          [(removeDashes dl, ⟨dl, extractYields e2, "Fresh data", false⟩)] :=
  C5_cache_key
    (fun s => if s = "2024-07-25" then some (25 : ℤ) else
      if s = "2024-07-26" then some 26 else none)
    "2024-07-26" (fun _ => none) [⟨some "2024-07-25", []⟩] ⟨some "2024-07-25", []⟩
    (by decide) (by decide) (by decide)

/-- Cache state after performing the recorded writes (first matching
write wins; unwritten keys read the old state). -/
def applyWrites (cache : String → Option YData) (ws : List (String × YData)) :
    String → Option YData :=
  fun k => match ws.find? (fun w => w.1 == k) with
    | some w => some w.2
    | none => cache k

/-- Counterexample for C6 as stated: after a first `AsOf(D)` call that
fetched fresh data and cached it, the second call returns an object that
differs from the first byte for byte — `cacheStatus` flips from
`Fresh data` to `Cached data` and `fromCache` from false to true. -/
theorem C6_idempotence_counterexample :
    (fetchYieldDataForDate (fun _ => none) (some "2024-07-25") (fun _ => none)
        (some [⟨some "2024-07-25", []⟩])).result =
      some ⟨"2024-07-25", [], "Fresh data", false⟩ ∧
    (fetchYieldDataForDate (fun _ => none) (some "2024-07-25")
        (applyWrites (fun _ => none)
          (fetchYieldDataForDate (fun _ => none) (some "2024-07-25") (fun _ => none)
            (some [⟨some "2024-07-25", []⟩])).cacheWrites)
        (some [⟨some "2024-07-25", []⟩])).result =
      some ⟨"2024-07-25", [], "Cached data", true⟩ ∧
    (fetchYieldDataForDate (fun _ => none) (some "2024-07-25")
        (applyWrites (fun _ => none)
          (fetchYieldDataForDate (fun _ => none) (some "2024-07-25") (fun _ => none)
            (some [⟨some "2024-07-25", []⟩])).cacheWrites)
        (some [⟨some "2024-07-25", []⟩])).result ≠
      (fetchYieldDataForDate (fun _ => none) (some "2024-07-25") (fun _ => none)
        (some [⟨some "2024-07-25", []⟩])).result := by decide

/-- C6 (amended): after a first `AsOf(D)` call that returned a fresh
curve and wrote it to the cache, a second call on the updated cache
returns the same date and point sequence with only the provenance fields
changed to `Cached`, and performs no network access and no write. -/
theorem C6_second_call_cached (v : String → Option ℤ) (ds : String)
    (cache : String → Option YData) (net : Option (List Entry)) (r1 : YData)
    (h1 : fetchYieldDataForDate v (some ds) cache net =
      { result := some r1, networkAccessed := true,
        cacheWrites := [(removeDashes ds, r1)] }) :
    fetchYieldDataForDate v (some ds)
        (applyWrites cache (fetchYieldDataForDate v (some ds) cache net).cacheWrites) net =
      { result := some (markCached r1), networkAccessed := false, cacheWrites := [] }
    ∧ (markCached r1).date = r1.date ∧ (markCached r1).yieldData = r1.yieldData := by
  rw [h1]
  refine ⟨?_, rfl, rfl⟩
  have hcc : applyWrites cache [(removeDashes ds, r1)] (removeDashes ds) = some r1 := by
    simp [applyWrites]
  simp [fetchYieldDataForDate, getCachedData, hcc]

/-- Witness for C6: concrete first call on an empty cache, second call on
the cache it wrote. -/
theorem C6_second_call_cached_witness :
    fetchYieldDataForDate (fun _ => none) (some "2024-07-25")
        (applyWrites (fun _ => none)
          (fetchYieldDataForDate (fun _ => none) (some "2024-07-25") (fun _ => none)
            (some [⟨some "2024-07-25", []⟩])).cacheWrites)
        (some [⟨some "2024-07-25", []⟩]) =
      { result := some (markCached ⟨"2024-07-25", [], "Fresh data", false⟩),
        networkAccessed := false, cacheWrites := [] }
    ∧ (markCached ⟨"2024-07-25", [], "Fresh data", false⟩).date =
        YData.date ⟨"2024-07-25", [], "Fresh data", false⟩
    ∧ (markCached ⟨"2024-07-25", [], "Fresh data", false⟩).yieldData =
        YData.yieldData ⟨"2024-07-25", [], "Fresh data", false⟩ :=
  C6_second_call_cached (fun _ => none) "2024-07-25" (fun _ => none)
    (some [⟨some "2024-07-25", []⟩]) ⟨"2024-07-25", [], "Fresh data", false⟩ (by decide)

/-! ## History-batch lemmas -/

theorem fetchHistorical_mem (resolver : String → FetchOutcome) :
    ∀ (hists : List HistDate) (h : HistDate), h ∈ hists →
      ∀ d, resolver h.dateString = FetchOutcome.value (some d) → d.yieldData ≠ [] →
      (⟨histKey h.daysAgo, d, h.label, h.daysAgo⟩ : HistEntry) ∈ fetchHistorical resolver hists := by
  intro hists
  induction hists with
  | nil => intro h hmem; exact absurd hmem (List.not_mem_nil h)
  | cons h0 rest ih =>
    intro h hmem d hres hd
    rw [show fetchHistorical resolver (h0 :: rest) =
      (match resolver h0.dateString with
       | FetchOutcome.value (some d) =>
         if 0 < d.yieldData.length then [⟨histKey h0.daysAgo, d, h0.label, h0.daysAgo⟩] else []
       | _ => []) ++ fetchHistorical resolver rest from rfl]
    rcases List.mem_cons.1 hmem with he | he
    · subst he
      have hlen : 0 < d.yieldData.length := List.length_pos.2 hd
      rw [hres]
      simp [hlen]
    · exact List.mem_append_right _ (ih h he d hres hd)

theorem fetchHistorical_absent (resolver : String → FetchOutcome) :
    ∀ (hists : List HistDate) (h : HistDate),
      (resolver h.dateString = FetchOutcome.thrown ∨
        resolver h.dateString = FetchOutcome.value none ∨
        ∃ d, resolver h.dateString = FetchOutcome.value (some d) ∧ d.yieldData = []) →
      (∀ h2 ∈ hists, h2.daysAgo = h.daysAgo → h2.dateString = h.dateString) →
      ∀ en ∈ fetchHistorical resolver hists, en.daysAgo ≠ h.daysAgo := by
  intro hists
  induction hists with
  | nil => intro h _ _ en hmem; exact absurd hmem (List.not_mem_nil en)
  | cons h0 rest ih =>
    intro h hfail hsame en hmem
    rw [show fetchHistorical resolver (h0 :: rest) =
      (match resolver h0.dateString with
       | FetchOutcome.value (some d) =>
         if 0 < d.yieldData.length then [⟨histKey h0.daysAgo, d, h0.label, h0.daysAgo⟩] else []
       | _ => []) ++ fetchHistorical resolver rest from rfl] at hmem
    rcases List.mem_append.1 hmem with hm | hm
    · rcases hres : resolver h0.dateString with _ | od
      · rw [hres] at hm; simp at hm
      · rcases od with _ | d
        · rw [hres] at hm; simp at hm
        · rw [hres] at hm
          by_cases hlen : 0 < d.yieldData.length
          · simp only [hlen, if_true, List.mem_singleton] at hm
            subst hm
            intro heq
            have hds : h0.dateString = h.dateString :=
              hsame h0 (List.mem_cons_self h0 rest) heq
            rw [hds] at hres
            rcases hfail with hf | hf | ⟨d2, hf, hd2⟩
            · rw [hf] at hres; cases hres
            · rw [hf] at hres; cases hres
            · rw [hf] at hres
              cases hres
              rw [hd2] at hlen
              simp at hlen
          · simp [hlen] at hm
    · exact ih h hfail (fun h2 hh2 => hsame h2 (List.mem_cons_of_mem h0 hh2)) en hm

/-- C9: partial results of the history batch.  A failing offset (thrown
error, null result, or zero-point curve) contributes no entry, and a
succeeding offset contributes its entry regardless of how every other
offset fared; the batch result is the current fetch paired with exactly
these per-offset entries. -/
theorem C9_partial_history (hists : List HistDate) (resolver : String → FetchOutcome)
    (h : HistDate) (hmem : h ∈ hists) :
    (∀ d, resolver h.dateString = FetchOutcome.value (some d) → d.yieldData ≠ [] →
      (⟨histKey h.daysAgo, d, h.label, h.daysAgo⟩ : HistEntry) ∈ fetchHistorical resolver hists)
    ∧ ((resolver h.dateString = FetchOutcome.thrown ∨
        resolver h.dateString = FetchOutcome.value none ∨
        ∃ d, resolver h.dateString = FetchOutcome.value (some d) ∧ d.yieldData = []) →
      (∀ h2 ∈ hists, h2.daysAgo = h.daysAgo → h2.dateString = h.dateString) →
      ∀ en ∈ fetchHistorical resolver hists, en.daysAgo ≠ h.daysAgo)
    ∧ ∀ currentData, fetchAllYieldData currentData hists resolver =
        (currentData, fetchHistorical resolver hists) :=
  ⟨fetchHistorical_mem resolver hists h hmem,
   fetchHistorical_absent resolver hists h,
   fun _ => rfl⟩

/-- Witness for C9: the one-week offset fails (thrown), the two-week
offset succeeds and its entry is present anyway. -/
theorem C9_partial_history_witness :
    ((⟨histKey 14, ⟨"2026-09-25", [⟨"1M", 1, PFloat.inf false⟩], "Fresh data", false⟩,
        "2 weeks ago", 14⟩ : HistEntry) ∈
      fetchHistorical
        (fun s => if s = "2026-09-25"
          then FetchOutcome.value
            (some ⟨"2026-09-25", [⟨"1M", 1, PFloat.inf false⟩], "Fresh data", false⟩)
          else FetchOutcome.thrown)
        [⟨7, "2026-10-02", "1 week ago"⟩, ⟨14, "2026-09-25", "2 weeks ago"⟩])
    ∧ ∀ en ∈ fetchHistorical
        (fun s => if s = "2026-09-25"
          then FetchOutcome.value
            (some ⟨"2026-09-25", [⟨"1M", 1, PFloat.inf false⟩], "Fresh data", false⟩)
          else FetchOutcome.thrown)
        [⟨7, "2026-10-02", "1 week ago"⟩, ⟨14, "2026-09-25", "2 weeks ago"⟩],
        en.daysAgo ≠ 7 :=
  ⟨(C9_partial_history
      [⟨7, "2026-10-02", "1 week ago"⟩, ⟨14, "2026-09-25", "2 weeks ago"⟩]
      (fun s => if s = "2026-09-25"
        then FetchOutcome.value
          (some ⟨"2026-09-25", [⟨"1M", 1, PFloat.inf false⟩], "Fresh data", false⟩)
        else FetchOutcome.thrown)
      ⟨14, "2026-09-25", "2 weeks ago"⟩ (by decide)).1
    ⟨"2026-09-25", [⟨"1M", 1, PFloat.inf false⟩], "Fresh data", false⟩ (by decide) (by decide),
   (C9_partial_history
      [⟨7, "2026-10-02", "1 week ago"⟩, ⟨14, "2026-09-25", "2 weeks ago"⟩]
      (fun s => if s = "2026-09-25"
        then FetchOutcome.value
          (some ⟨"2026-09-25", [⟨"1M", 1, PFloat.inf false⟩], "Fresh data", false⟩)
        else FetchOutcome.thrown)
      ⟨7, "2026-10-02", "1 week ago"⟩ (by decide)).2.1
    (Or.inl (by decide)) (by decide)⟩

/-- C8: the date adjustment of history resolution maps every valid date
to the closest previous date (0 or more `prevDay` steps back) that is
neither a Saturday, nor a Sunday, nor one of the three recognized fixed
holidays: the result is not a weekend and not a holiday, and every
strictly later date the loop skipped is a weekend or a holiday. -/
theorem C8_business_day_backdating (t : JsDate) (hv : t.ValidDate) :
    ∃ k, getClosestPreviousBusinessDay t = prevIter k t ∧
      isWeekend (prevIter k t) = false ∧ isUSHoliday (prevIter k t) = false ∧
      ∀ j, j < k → (isWeekend (prevIter j t) = true ∨ isUSHoliday (prevIter j t) = true) := by
  obtain ⟨k, _, hs, hb, hbefore⟩ := closestBusinessDay_spec t hv
  simp only [isBusinessDay, Bool.and_eq_true, Bool.not_eq_true'] at hb
  refine ⟨k, hs, hb.1, hb.2, ?_⟩
  intro j hj
  have hf := hbefore j hj
  rcases hw : isWeekend (prevIter j t) with _ | _
  · refine Or.inr ?_
    simp [isBusinessDay, hw] at hf
    exact hf
  · exact Or.inl rfl

/-- Witness for C8 at the Saturday 2026-10-10. -/
theorem C8_business_day_backdating_witness :
    JsDate.ValidDate ⟨2026, 10, 10⟩ ∧
    ∃ k, getClosestPreviousBusinessDay ⟨2026, 10, 10⟩ = prevIter k ⟨2026, 10, 10⟩ ∧
      isWeekend (prevIter k ⟨2026, 10, 10⟩) = false ∧
      isUSHoliday (prevIter k ⟨2026, 10, 10⟩) = false ∧
      ∀ j, j < k → (isWeekend (prevIter j ⟨2026, 10, 10⟩) = true ∨
        isUSHoliday (prevIter j ⟨2026, 10, 10⟩) = true) :=
  ⟨by decide, C8_business_day_backdating ⟨2026, 10, 10⟩ (by decide)⟩

/-- C10: the backward business-day loop terminates on every valid date,
and within at most 3 steps: no run of consecutive non-business days
exceeds 3 (only Saturdays, Sundays and three fixed dates are excluded,
and two of the fixed dates are never within 3 days of each other). -/
theorem C10_search_terminates (t : JsDate) (hv : t.ValidDate) :
    ∃ k, k ≤ 3 ∧ getClosestPreviousBusinessDay t = prevIter k t ∧
      isBusinessDay (prevIter k t) = true := by
  obtain ⟨k, hk, hs, hb, _⟩ := closestBusinessDay_spec t hv
  exact ⟨k, hk, hs, hb⟩

/-- Witness for C10 at Christmas 2026. -/
theorem C10_search_terminates_witness :
    JsDate.ValidDate ⟨2026, 12, 25⟩ ∧
    ∃ k, k ≤ 3 ∧
      getClosestPreviousBusinessDay ⟨2026, 12, 25⟩ = prevIter k ⟨2026, 12, 25⟩ ∧
      isBusinessDay (prevIter k ⟨2026, 12, 25⟩) = true :=
  ⟨by decide, C10_search_terminates ⟨2026, 12, 25⟩ (by decide)⟩

/-- Concrete check: Christmas 2026 (a Friday) backdates to December 24. -/
theorem christmas_backdates_to_christmas_eve :
    getClosestPreviousBusinessDay ⟨2026, 12, 25⟩ = ⟨2026, 12, 24⟩ := by
  obtain ⟨k, _, hs, hb, hbefore⟩ := closestBusinessDay_spec ⟨2026, 12, 25⟩ (by decide)
  have h0 : isBusinessDay (prevIter 0 ⟨2026, 12, 25⟩) = false := by decide
  have h1 : isBusinessDay (prevIter 1 ⟨2026, 12, 25⟩) = true := by decide
  have hk1 : k = 1 := by
    rcases k with _ | _ | k
    · simp [hb] at h0
    · rfl
    · have hj := hbefore 1 (by omega)
      simp [hj] at h1
  subst hk1
  rw [hs]
  rfl

/-- Concrete check: the Saturday 2026-10-10 backdates to Friday
2026-10-09. -/
theorem saturday_backdates_to_friday :
    getClosestPreviousBusinessDay ⟨2026, 10, 10⟩ = ⟨2026, 10, 9⟩ := by
  obtain ⟨k, _, hs, hb, hbefore⟩ := closestBusinessDay_spec ⟨2026, 10, 10⟩ (by decide)
  have h0 : isBusinessDay (prevIter 0 ⟨2026, 10, 10⟩) = false := by decide
  have h1 : isBusinessDay (prevIter 1 ⟨2026, 10, 10⟩) = true := by decide
  have hk1 : k = 1 := by
    rcases k with _ | _ | k
    · simp [hb] at h0
    · rfl
    · have hj := hbefore 1 (by omega)
      simp [hj] at h1
  subst hk1
  rw [hs]
  rfl
